import Mathlib

/-!
Shallow embedding of the HX711 scale driver (scale.py together with the
diagnostic scripts test_pigpio.py, test_raw_gpio.py and test_scale.py):
the bit-level transport, the 24-bit twos-complement sample decoder, the
degenerate-pattern classification, the sampling/averaging service and the
tare/calibrate engine.  Python floats are modelled as rationals (ℚ), GPIO
pin traffic as an explicit event trace, and the data line as a function
from sample index to level.
-/

/-- Sample decoder of `scale.py` (`read_raw`, lines 72–76): convert the
24-bit unsigned shift result to a signed integer, subtracting `0x1000000`
when the sign bit `0x800000` is set. -/
def decodeRaw (raw_value : Nat) : Int :=
  if raw_value &&& 0x800000 ≠ 0 then (raw_value : Int) - 0x1000000
  else (raw_value : Int)

/-- Modelled from the spec: the 24-bit twos-complement encoding of a signed
value, the inverse map that the involutivity property of the spec quantifies over
(the scripts only ever decode; no encoder exists in the source). -/
def encodeSigned (s : Int) : Nat := (s % 0x1000000).toNat

lemma and_pow23_ne_zero_iff (m : Nat) :
    m &&& 0x800000 ≠ 0 ↔ m.testBit 23 = true := by
  have h : m &&& 0x800000 = (m.testBit 23).toNat * 2 ^ 23 := by
    have := Nat.and_two_pow m 23
    norm_num at this ⊢
    exact this
  rw [h]
  cases hb : m.testBit 23 <;> simp

lemma testBit23_iff_ge (m : Nat) (hm : m < 2 ^ 24) :
    m.testBit 23 = true ↔ 2 ^ 23 ≤ m := by
  rw [Nat.testBit_to_div_mod]
  simp only [decide_eq_true_eq]
  omega

/-- C1: for every 24-bit magnitude, the decoder subtracts `0x1000000`
exactly when bit 23 is set and is the identity otherwise; in particular
`0x000000 ↦ 0`, `0xFFFFFF ↦ -1`, `0x800000 ↦ -8388608`,
`0x7FFFFF ↦ 8388607`. -/
theorem decodeRaw_spec (m : Nat) (hm : m ≤ 0xFFFFFF) :
    (m.testBit 23 = true → decodeRaw m = (m : Int) - 0x1000000) ∧
    (m.testBit 23 = false → decodeRaw m = (m : Int)) ∧
    decodeRaw 0x000000 = 0 ∧ decodeRaw 0xFFFFFF = -1 ∧
    decodeRaw 0x800000 = -8388608 ∧ decodeRaw 0x7FFFFF = 8388607 := by
  refine ⟨?_, ?_, by decide, by decide, by decide, by decide⟩
  · intro hb
    rw [decodeRaw, if_pos ((and_pow23_ne_zero_iff m).mpr hb)]
  · intro hb
    rw [decodeRaw, if_neg]
    intro hc
    rw [(and_pow23_ne_zero_iff m).mp hc] at hb
    simp at hb

theorem decodeRaw_spec_witness :
    ((0x800000 : Nat).testBit 23 = true →
      decodeRaw 0x800000 = (0x800000 : Int) - 0x1000000) ∧
    ((0x800000 : Nat).testBit 23 = false → decodeRaw 0x800000 = (0x800000 : Int)) ∧
    decodeRaw 0x000000 = 0 ∧ decodeRaw 0xFFFFFF = -1 ∧
    decodeRaw 0x800000 = -8388608 ∧ decodeRaw 0x7FFFFF = 8388607 :=
  decodeRaw_spec 0x800000 (by decide)

/-- C7: decoding inverts the 24-bit twos-complement encoding on the whole
signed range `[-8388608, 8388607]`. -/
theorem decode_encode (s : Int) (h1 : -8388608 ≤ s) (h2 : s ≤ 8388607) :
    decodeRaw (encodeSigned s) = s := by
  have hmod : (0 : Int) ≤ s % 0x1000000 ∧ s % 0x1000000 < 0x1000000 := by
    constructor <;> omega
  have hlt : encodeSigned s < 2 ^ 24 := by
    unfold encodeSigned; omega
  rcases le_or_lt 0 s with hs | hs
  · have hse : s % 0x1000000 = s := Int.emod_eq_of_lt hs (by omega)
    have hm : encodeSigned s = s.toNat := by unfold encodeSigned; omega
    have hmlt : encodeSigned s < 2 ^ 23 := by omega
    have hb : (encodeSigned s).testBit 23 = false := by
      rcases hbc : (encodeSigned s).testBit 23 with _ | _
      · rfl
      · exact absurd ((testBit23_iff_ge _ hlt).mp hbc) (by omega)
    rw [decodeRaw, if_neg]
    · omega
    · intro hc
      rw [(and_pow23_ne_zero_iff _).mp hc] at hb
      simp at hb
  · have hse : s % 0x1000000 = s + 0x1000000 := by omega
    have hge : 2 ^ 23 ≤ encodeSigned s := by unfold encodeSigned; omega
    have hb : (encodeSigned s).testBit 23 = true :=
      (testBit23_iff_ge _ hlt).mpr hge
    rw [decodeRaw, if_pos ((and_pow23_ne_zero_iff _).mpr hb)]
    unfold encodeSigned
    omega

theorem decode_encode_witness :
    decodeRaw (encodeSigned (-8388608)) = -8388608 :=
  decode_encode (-8388608) (by decide) (by decide)

/-- One observable GPIO action of the transport: a level written to the
clock line, or a level sampled from the data line. -/
inductive HXEvent where
  | sck (level : Bool)
  | sample (bit : Bool)
  deriving DecidableEq, Repr

/-- Holds exactly on clock-line HIGH writes. -/
def isSckHigh : HXEvent → Bool
  | HXEvent.sck true => true
  | _ => false

/-- Holds exactly on data-line samples. -/
def isSample : HXEvent → Bool
  | HXEvent.sample _ => true
  | _ => false

/-- The 24-iteration shift loop of `read_raw` (`scale.py`, lines 62–66):
each iteration drives the clock HIGH then LOW, samples the data line, and
shifts the sampled bit into the accumulator.  `env i` is the level the data
line holds at the `i`-th sample; `idx` counts samples taken so far and `tr`
is the event trace so far. -/
def readBits (env : Nat → Bool) : Nat → Nat → Nat → List HXEvent → Nat × Nat × List HXEvent
  | 0, raw_value, idx, tr => (raw_value, idx, tr)
  | n + 1, raw_value, idx, tr =>
    let b := env idx
    readBits env n ((raw_value <<< 1) ||| b.toNat) (idx + 1)
      (tr ++ [HXEvent.sck true, HXEvent.sck false, HXEvent.sample b])

/-- Embedding of `read_raw` from `scale.py` (lines 56–76) at gain 128: when the device is
ready, shift in 24 bits, emit the one extra gain pulse, and return the
twos-complement decoded value together with the full event trace; when the
readiness wait times out, return nothing and touch no pin. -/
def read_raw (env : Nat → Bool) (ready : Bool) : Option Int × List HXEvent :=
  if ready then
    let r := readBits env 24 0 0 []
    (some (decodeRaw r.1), r.2.2 ++ [HXEvent.sck true, HXEvent.sck false])
  else (none, [])

lemma shiftLeft_one_or_bit (raw_value : Nat) (b : Bool) :
    (raw_value <<< 1) ||| b.toNat = 2 * raw_value + b.toNat := by
  cases b
  · simp [Nat.shiftLeft_eq, mul_comm]
  · show (raw_value <<< 1) ||| 1 = 2 * raw_value + 1
    have e1 : raw_value <<< 1 = 2 * raw_value := by
      rw [Nat.shiftLeft_eq]; ring
    apply Nat.eq_of_testBit_eq
    intro i
    cases i with
    | zero =>
      rw [Nat.testBit_or, e1]
      simp only [Nat.testBit_zero]
      have h2 : 2 * raw_value % 2 = 0 := by omega
      have h3 : (2 * raw_value + 1) % 2 = 1 := by omega
      simp [h2, h3]
    | succ j =>
      have e2 : 2 * raw_value / 2 = raw_value := by omega
      have e3 : (2 * raw_value + 1) / 2 = raw_value := by omega
      rw [Nat.testBit_or, e1, Nat.testBit_succ, Nat.testBit_succ, e2]
      rw [Nat.testBit_succ, e3]
      simp

lemma readBits_spec (env : Nat → Bool) :
    ∀ (n raw_value idx : Nat) (tr : List HXEvent),
      readBits env n raw_value idx tr =
        (raw_value * 2 ^ n +
           ∑ j ∈ Finset.range n, (env (idx + j)).toNat * 2 ^ (n - 1 - j),
         idx + n,
         tr ++ (List.range n).flatMap
           (fun j => [HXEvent.sck true, HXEvent.sck false,
                      HXEvent.sample (env (idx + j))])) := by
  intro n
  induction n with
  | zero => intro raw_value idx tr; simp [readBits]
  | succ n ih =>
    intro raw_value idx tr
    rw [readBits, ih, shiftLeft_one_or_bit]
    have key : ∑ j ∈ Finset.range (n + 1), (env (idx + j)).toNat * 2 ^ (n + 1 - 1 - j)
        = (∑ j ∈ Finset.range n, (env (idx + 1 + j)).toNat * 2 ^ (n - 1 - j)) +
          (env idx).toNat * 2 ^ n := by
      rw [Finset.sum_range_succ']
      congr 1
      · apply Finset.sum_congr rfl
        intro j _
        have h1 : idx + (j + 1) = idx + 1 + j := by omega
        have h2 : n + 1 - 1 - (j + 1) = n - 1 - j := by omega
        rw [h1, h2]
    have tkey : (List.range (n + 1)).flatMap
          (fun j => [HXEvent.sck true, HXEvent.sck false,
                     HXEvent.sample (env (idx + j))])
        = [HXEvent.sck true, HXEvent.sck false, HXEvent.sample (env idx)] ++
          (List.range n).flatMap
            (fun j => [HXEvent.sck true, HXEvent.sck false,
                       HXEvent.sample (env (idx + 1 + j))]) := by
      rw [List.range_succ_eq_map, List.flatMap_cons, List.flatMap_map]
      have h3 : ∀ j : Nat, idx + 1 + j = idx + Nat.succ j := fun j => by omega
      simp only [h3, Nat.add_zero]
    refine Prod.ext ?_ (Prod.ext (by simp; omega) ?_)
    · show (2 * raw_value + (env idx).toNat) * 2 ^ n + _ = _
      rw [key, pow_succ]
      ring
    · show _ ++ _ = tr ++ _
      rw [tkey]
      simp [List.append_assoc]

lemma filter_trace_counts (env : Nat → Bool) (n : Nat) :
    ((((List.range n).flatMap
        (fun j => [HXEvent.sck true, HXEvent.sck false,
                   HXEvent.sample (env j)])).filter isSckHigh).length = n) ∧
    ((((List.range n).flatMap
        (fun j => [HXEvent.sck true, HXEvent.sck false,
                   HXEvent.sample (env j)])).filter isSample).length = n) := by
  induction n with
  | zero => simp
  | succ n ih =>
    rw [List.range_succ]
    simp only [List.flatMap_append, List.filter_append, List.length_append,
      ih.1, ih.2, List.flatMap_cons, List.flatMap_nil, List.append_nil]
    constructor
    · have : ([HXEvent.sck true, HXEvent.sck false,
          HXEvent.sample (env n)].filter isSckHigh) = [HXEvent.sck true] := rfl
      rw [this]
      simp
    · have : ([HXEvent.sck true, HXEvent.sck false,
          HXEvent.sample (env n)].filter isSample) = [HXEvent.sample (env n)] := rfl
      rw [this]
      simp

/-- C2: a ready `read_raw` invocation at gain 128 emits exactly 25
HIGH-then-LOW clock cycles (24 data-bit cycles, each followed by one data
sample, plus one unsampled gain pulse), and returns the decode of the
magnitude assembled MSB-first from the 24 sampled levels
(`∑ i, bit_i * 2 ^ (23 - i)`). -/
theorem read_raw_protocol (env : Nat → Bool) :
    (read_raw env true).2 =
      (List.range 24).flatMap
        (fun i => [HXEvent.sck true, HXEvent.sck false, HXEvent.sample (env i)]) ++
      [HXEvent.sck true, HXEvent.sck false] ∧
    ((read_raw env true).2.filter isSckHigh).length = 25 ∧
    ((read_raw env true).2.filter isSample).length = 24 ∧
    (read_raw env true).1 =
      some (decodeRaw (∑ i ∈ Finset.range 24, (env i).toNat * 2 ^ (23 - i))) := by
  have h := readBits_spec env 24 0 0 []
  have htr : (read_raw env true).2 =
      (List.range 24).flatMap
        (fun i => [HXEvent.sck true, HXEvent.sck false, HXEvent.sample (env i)]) ++
      [HXEvent.sck true, HXEvent.sck false] := by
    rw [read_raw]
    simp [h]
  have hcnt := filter_trace_counts env 24
  refine ⟨htr, ?_, ?_, ?_⟩
  · rw [htr, List.filter_append, List.length_append, hcnt.1]
    rfl
  · rw [htr, List.filter_append, List.length_append, hcnt.2]
    rfl
  · rw [read_raw]
    simp [h]

theorem read_raw_protocol_witness :
    (read_raw (fun _ => true) true).1 =
      some (decodeRaw (∑ i ∈ Finset.range 24,
        ((fun _ => true) i : Bool).toNat * 2 ^ (23 - i))) :=
  (read_raw_protocol (fun _ => true)).2.2.2

/-- Calibration state of `scale.py`: the module-level `OFFSET` and `SCALE`
variables (lines 27–29). -/
structure CalState where
  offset : ℚ
  scale : ℚ
  deriving DecidableEq, Repr

/-- The pass-through defaults `OFFSET = 0`, `SCALE = 1` of `scale.py`
(lines 28–29). -/
def initialCal : CalState := { offset := 0, scale := 1 }

/-- Embedding of `read_average` from `scale.py` (lines 79–90): given the outcomes of the
`times` transport reads (`none` models a timed-out `read_raw`), keep the
successful values and return their mean, or `none` when every read failed. -/
def read_average (reads : List (Option ℚ)) : Option ℚ :=
  let values := reads.filterMap id
  if values.isEmpty then none
  else some (values.sum / values.length)

/-- Embedding of `tare` from `scale.py` (lines 93–103): set `OFFSET` to the average of the
window and report success, or leave state untouched and report failure when
the average is unavailable. -/
def tare (st : CalState) (reads : List (Option ℚ)) : CalState × Bool :=
  match read_average reads with
  | some avg => ({ st with offset := avg }, true)
  | none => (st, false)

/-- Outcome of a `calibrate` call: a normal return carrying the updated
state and the returned boolean, or the uncaught `ZeroDivisionError` Python
raises when `known_weight_grams` is zero (state at the raise point). -/
inductive CalibrateResult where
  | ok (state : CalState) (success : Bool)
  | zeroDivisionError (state : CalState)
  deriving DecidableEq, Repr

/-- Embedding of `calibrate` from `scale.py` (lines 106–118): set
`SCALE = (avg - OFFSET) / known_weight_grams` and report success when an
average is available (raising `ZeroDivisionError` if the divisor is zero),
or leave state untouched and report failure otherwise.  No check of the
resulting scale factor is performed. -/
def calibrate (st : CalState) (known_weight_grams : ℚ)
    (reads : List (Option ℚ)) : CalibrateResult :=
  match read_average reads with
  | some avg =>
    if known_weight_grams = 0 then CalibrateResult.zeroDivisionError st
    else CalibrateResult.ok
      { st with scale := (avg - st.offset) / known_weight_grams } true
  | none => CalibrateResult.ok st false

/-- Embedding of `get_weight` from `scale.py` (lines 121–126): convert one raw reading to
grams via `(raw - OFFSET) / SCALE`, passing a failed read through. -/
def get_weight (st : CalState) (raw_read : Option ℚ) : Option ℚ :=
  match raw_read with
  | some raw => some ((raw - st.offset) / st.scale)
  | none => none

/-- The per-window statistics of `test_scale.py` (`test_stability`, lines
171–181): mean, min, max, and a "variance" computed as `max - min`. -/
structure SampleStatistics where
  mean : ℚ
  min : ℤ
  max : ℤ
  variance : ℤ
  deriving DecidableEq, Repr

/-- Statistics over an already-collected window, as computed in
`test_scale.py` lines 171–181 (`sum/len`, `min`, `max`, `max - min`);
`none` on an empty window (the guard `if readings:` in the code). -/
def statistics (samples : List ℤ) : Option SampleStatistics :=
  match samples with
  | [] => none
  | x :: xs =>
    some { mean := ((x :: xs).sum : ℚ) / (x :: xs).length,
           min := xs.foldl Min.min x,
           max := xs.foldl Max.max x,
           variance := xs.foldl Max.max x - xs.foldl Min.min x }

/-- The fault taxonomy of the Sample Decoder / Diagnostics in the spec. -/
inductive FaultClass where
  | AllOnes
  | AllZeros
  | SaturatedMiddleByte
  | SuspiciousPowerOfTwoPattern
  | Nominal
  deriving DecidableEq, Repr

/-- Modelled from the spec: the unified degenerate-pattern classification of
the Sample Decoder, absent as a single function from the scripts.  The
branch predicates are taken verbatim from the source — `test_raw_gpio.py`
lines 103–110 (`0xFFFFFF`, `0x000000`, middle byte `0xFF`) and
`test_scale.py` lines 122–128 / 184 (`m > 0 and (m & (m + 1)) == 0`) — and
the precedence AllOnes > AllZeros > SaturatedMiddleByte >
SuspiciousPowerOfTwoPattern > Nominal is the one the spec fixes. -/
def classify (m : Nat) : FaultClass :=
  if m = 0xFFFFFF then FaultClass.AllOnes
  else if m = 0x000000 then FaultClass.AllZeros
  else if (m >>> 8) &&& 0xFF = 0xFF then FaultClass.SaturatedMiddleByte
  else if 0 < m ∧ m &&& (m + 1) = 0 then FaultClass.SuspiciousPowerOfTwoPattern
  else FaultClass.Nominal

lemma read_average_some (reads : List (Option ℚ))
    (h : reads.filterMap id ≠ []) :
    read_average reads =
      some ((reads.filterMap id).sum / (reads.filterMap id).length) := by
  have hie : (reads.filterMap id).isEmpty = false := by
    rcases he : reads.filterMap id with _ | ⟨a, l⟩
    · exact absurd he h
    · rfl
  simp [read_average, hie]

lemma read_average_none_iff (reads : List (Option ℚ)) :
    read_average reads = none ↔ reads.filterMap id = [] := by
  constructor
  · intro hn
    by_contra hc
    rw [read_average_some reads hc] at hn
    exact Option.noConfusion hn
  · intro hc
    simp [read_average, hc]

/-- C4: `read_average` discards the failed reads, returns the arithmetic
mean of the remaining values, and returns nothing exactly when every read
failed; with reads `[10, ∅, 12, ∅, 11]` it returns `11`. -/
theorem read_average_spec (reads : List (Option ℚ)) :
    (read_average reads = none ↔ reads.filterMap id = []) ∧
    (reads.filterMap id ≠ [] →
      read_average reads =
        some ((reads.filterMap id).sum / (reads.filterMap id).length)) ∧
    read_average [some 10, none, some 12, none, some 11] = some 11 := by
  refine ⟨read_average_none_iff reads, read_average_some reads, ?_⟩
  simp [read_average]
  norm_num

theorem read_average_spec_witness :
    read_average [some 10, none] =
      some (((Option.some 10 :: Option.none :: ([] : List (Option ℚ))).filterMap id).sum /
        ((Option.some 10 :: Option.none :: ([] : List (Option ℚ))).filterMap id).length) :=
  (read_average_spec [some 10, none]).2.1 (by decide)

/-- C5: `tare` sets the offset to the mean of the valid window samples and
fails exactly when there is no valid sample; raw samples
`[100, 102, 98, 100]` give offset `100`. -/
theorem tare_spec (st : CalState) (reads : List (Option ℚ)) :
    ((tare st reads).2 = false ↔ reads.filterMap id = []) ∧
    (∀ avg, read_average reads = some avg →
      tare st reads = ({ offset := avg, scale := st.scale }, true)) ∧
    tare initialCal [some 100, some 102, some 98, some 100] =
      ({ offset := 100, scale := 1 }, true) := by
  have hc : read_average [some 100, some 102, some 98, some 100] =
      some 100 := by
    simp [read_average]
    norm_num
  refine ⟨?_, ?_, by simp [tare, hc, initialCal]⟩
  · cases hr : read_average reads with
    | none =>
      have h0 := (read_average_none_iff reads).mp hr
      unfold tare
      rw [hr]
      exact iff_of_true rfl h0
    | some avg =>
      unfold tare
      rw [hr]
      refine iff_of_false (by simp) ?_
      intro hc
      rw [(read_average_none_iff reads).mpr hc] at hr
      exact Option.noConfusion hr
  · intro avg hr
    unfold tare
    rw [hr]

theorem tare_spec_witness :
    tare { offset := 5, scale := 2 } [some 4] =
      ({ offset := 4, scale := 2 }, true) :=
  (tare_spec { offset := 5, scale := 2 } [some 4]).2.1 4 (by simp [read_average])

/-- C3 counterexample: with offset `100`, one valid sample `100` and known
weight `500`, the resulting scale factor is exactly `0`, yet `calibrate`
returns success and stores it; and with known weight `0` it raises a
`ZeroDivisionError` instead of returning a failure result. -/
theorem calibrate_claim_counterexample :
    calibrate { offset := 100, scale := 1 } 500 [some 100] =
      CalibrateResult.ok { offset := 100, scale := 0 } true ∧
    calibrate { offset := 0, scale := 1 } 0 [some 5] =
      CalibrateResult.zeroDivisionError { offset := 0, scale := 1 } := by
  have h1 : read_average [some 100] = some 100 := by simp [read_average]
  have h2 : read_average [some 5] = some 5 := by simp [read_average]
  constructor
  · rw [calibrate, h1]
    norm_num
  · rw [calibrate, h2]
    norm_num

/-- C3 (amended): `calibrate` returns a failure result exactly when zero
valid samples were obtained; with valid samples and known weight `0` it
raises `ZeroDivisionError`; otherwise it sets
`scale = (mean - offset) / known_weight` and reports success even when that
scale is exactly `0`. -/
theorem calibrate_spec (st : CalState) (w : ℚ) (reads : List (Option ℚ)) :
    (read_average reads = none → calibrate st w reads = CalibrateResult.ok st false) ∧
    ((∃ s, calibrate st w reads = CalibrateResult.ok s false) ↔
      reads.filterMap id = []) ∧
    (∀ avg, read_average reads = some avg → w = 0 →
      calibrate st w reads = CalibrateResult.zeroDivisionError st) ∧
    (∀ avg, read_average reads = some avg → w ≠ 0 →
      calibrate st w reads =
        CalibrateResult.ok { offset := st.offset, scale := (avg - st.offset) / w } true) := by
  refine ⟨?_, ?_, ?_, ?_⟩
  · intro hr; simp [calibrate, hr]
  · cases hr : read_average reads with
    | none =>
      simp [calibrate, hr, (read_average_none_iff reads).mp hr]
    | some avg =>
      have hne : ¬ reads.filterMap id = [] := by
        intro hc
        rw [(read_average_none_iff reads).mpr hc] at hr
        exact Option.noConfusion hr
      simp only [calibrate, hr, hne, iff_false]
      rintro ⟨s, hs⟩
      by_cases hw : w = 0
      · rw [if_pos hw] at hs; exact CalibrateResult.noConfusion hs
      · rw [if_neg hw] at hs
        have := (CalibrateResult.ok.injEq _ _ _ _).mp hs
        exact Bool.noConfusion this.2
  · intro avg hr hw; simp [calibrate, hr, hw]
  · intro avg hr hw; simp [calibrate, hr, hw]

theorem calibrate_spec_witness :
    calibrate { offset := 1, scale := 2 } 3 [none] =
      CalibrateResult.ok { offset := 1, scale := 2 } false :=
  (calibrate_spec { offset := 1, scale := 2 } 3 [none]).1 (by simp [read_average])

/-- C6: weight conversion is `(raw - offset) / scale` whenever `scale ≠ 0`,
and the pass-through default state (`offset = 0`, `scale = 1`) makes it the
identity on the raw count. -/
theorem get_weight_spec (st : CalState) (x : ℚ) (h : st.scale ≠ 0) :
    get_weight st (some x) = some ((x - st.offset) / st.scale) ∧
    get_weight initialCal (some x) = some x := by
  exact ⟨rfl, by simp [get_weight, initialCal]⟩

theorem get_weight_spec_witness :
    get_weight { offset := 3, scale := 2 } (some 7) = some ((7 - 3) / 2) ∧
    get_weight initialCal (some 7) = some 7 :=
  get_weight_spec { offset := 3, scale := 2 } 7 (by norm_num)

/-- C10: when the averaging window yields no valid sample, `tare` and
`calibrate` both report failure with the calibration state unchanged. -/
theorem tare_calibrate_atomic (st : CalState) (w : ℚ)
    (reads : List (Option ℚ)) (h : reads.filterMap id = []) :
    tare st reads = (st, false) ∧
    calibrate st w reads = CalibrateResult.ok st false := by
  have hr : read_average reads = none := (read_average_none_iff reads).mpr h
  exact ⟨by simp [tare, hr], by simp [calibrate, hr]⟩

theorem tare_calibrate_atomic_witness :
    tare { offset := 3, scale := 7 } [none, none] =
      ({ offset := 3, scale := 7 }, false) ∧
    calibrate { offset := 3, scale := 7 } 5 [none, none] =
      CalibrateResult.ok { offset := 3, scale := 7 } false :=
  tare_calibrate_atomic { offset := 3, scale := 7 } 5 [none, none] (by decide)

/-- C8: the classification applies the precedence AllOnes > AllZeros >
SaturatedMiddleByte > SuspiciousPowerOfTwoPattern > Nominal, with
`0x0000FF` flagged suspicious and `0x1234AB` nominal. -/
theorem classify_spec (m : Nat) :
    (m = 0xFFFFFF → classify m = FaultClass.AllOnes) ∧
    (m ≠ 0xFFFFFF → m = 0x000000 → classify m = FaultClass.AllZeros) ∧
    (m ≠ 0xFFFFFF → m ≠ 0x000000 → (m >>> 8) &&& 0xFF = 0xFF →
      classify m = FaultClass.SaturatedMiddleByte) ∧
    (m ≠ 0xFFFFFF → m ≠ 0x000000 → (m >>> 8) &&& 0xFF ≠ 0xFF →
      0 < m → m &&& (m + 1) = 0 →
      classify m = FaultClass.SuspiciousPowerOfTwoPattern) ∧
    (m ≠ 0xFFFFFF → m ≠ 0x000000 → (m >>> 8) &&& 0xFF ≠ 0xFF →
      ¬(0 < m ∧ m &&& (m + 1) = 0) → classify m = FaultClass.Nominal) ∧
    classify 0x0000FF = FaultClass.SuspiciousPowerOfTwoPattern ∧
    classify 0x1234AB = FaultClass.Nominal := by
  refine ⟨?_, ?_, ?_, ?_, ?_, by decide, by decide⟩
  · intro h1
    unfold classify
    rw [if_pos h1]
  · intro h1 h2
    unfold classify
    rw [if_neg h1, if_pos h2]
  · intro h1 h2 h3
    unfold classify
    rw [if_neg h1, if_neg h2, if_pos h3]
  · intro h1 h2 h3 h4 h5
    unfold classify
    rw [if_neg h1, if_neg h2, if_neg h3, if_pos ⟨h4, h5⟩]
  · intro h1 h2 h3 h4
    unfold classify
    rw [if_neg h1, if_neg h2, if_neg h3, if_neg h4]

theorem classify_spec_witness :
    classify 255 = FaultClass.SuspiciousPowerOfTwoPattern :=
  (classify_spec 255).2.2.2.1 (by decide) (by decide) (by decide)
    (by decide) (by decide)

lemma foldl_min_mem (xs : List ℤ) : ∀ x : ℤ, xs.foldl Min.min x ∈ x :: xs := by
  induction xs with
  | nil => intro x; simp
  | cons a l ih =>
    intro x
    have h := ih (Min.min x a)
    simp only [List.foldl_cons]
    rcases List.mem_cons.mp h with h1 | h1
    · rw [h1]
      rcases min_choice x a with hc | hc <;> rw [hc] <;> simp
    · simp [h1]

lemma foldl_min_le (xs : List ℤ) : ∀ x y : ℤ, y ∈ x :: xs → xs.foldl Min.min x ≤ y := by
  induction xs with
  | nil =>
    intro x y hy
    simp at hy
    simp [hy]
  | cons a l ih =>
    intro x y hy
    simp only [List.foldl_cons]
    rcases List.mem_cons.mp hy with h1 | h1
    · rw [h1]
      exact le_trans (ih _ _ (List.mem_cons_self _ _)) (min_le_left x a)
    · rcases List.mem_cons.mp h1 with h2 | h2
      · rw [h2]
        exact le_trans (ih _ _ (List.mem_cons_self _ _)) (min_le_right x a)
      · exact ih _ y (List.mem_cons_of_mem _ h2)

lemma foldl_max_mem (xs : List ℤ) : ∀ x : ℤ, xs.foldl Max.max x ∈ x :: xs := by
  induction xs with
  | nil => intro x; simp
  | cons a l ih =>
    intro x
    have h := ih (Max.max x a)
    simp only [List.foldl_cons]
    rcases List.mem_cons.mp h with h1 | h1
    · rw [h1]
      rcases max_choice x a with hc | hc <;> rw [hc] <;> simp
    · simp [h1]

lemma foldl_le_max (xs : List ℤ) : ∀ x y : ℤ, y ∈ x :: xs → y ≤ xs.foldl Max.max x := by
  induction xs with
  | nil =>
    intro x y hy
    simp at hy
    simp [hy]
  | cons a l ih =>
    intro x y hy
    simp only [List.foldl_cons]
    rcases List.mem_cons.mp hy with h1 | h1
    · rw [h1]
      exact le_trans (le_max_left x a) (ih _ _ (List.mem_cons_self _ _))
    · rcases List.mem_cons.mp h1 with h2 | h2
      · rw [h2]
        exact le_trans (le_max_right x a) (ih _ _ (List.mem_cons_self _ _))
      · exact ih _ y (List.mem_cons_of_mem _ h2)

/-- C9: on a non-empty window the statistics are the arithmetic mean, the
true minimum and maximum of the samples, and a "variance" equal to
`max - min`; samples `[10, 20, 30]` give mean `20`, min `10`, max `30`,
variance `20`. -/
theorem statistics_spec (x : ℤ) (xs : List ℤ) :
    (∃ st, statistics (x :: xs) = some st ∧
      st.mean = (((x :: xs).sum : ℚ)) / ((x :: xs).length : ℚ) ∧
      st.min ∈ x :: xs ∧ (∀ y ∈ x :: xs, st.min ≤ y) ∧
      st.max ∈ x :: xs ∧ (∀ y ∈ x :: xs, y ≤ st.max) ∧
      st.variance = st.max - st.min) ∧
    statistics [10, 20, 30] =
      some { mean := 20, min := 10, max := 30, variance := 20 } := by
  constructor
  · refine ⟨_, rfl, ?_, foldl_min_mem xs x,
      fun y hy => foldl_min_le xs x y hy, foldl_max_mem xs x,
      fun y hy => foldl_le_max xs x y hy, rfl⟩
    push_cast
    rfl
  · simp [statistics]
    norm_num

theorem statistics_spec_witness :
    statistics [10, 20, 30] =
      some { mean := 20, min := 10, max := 30, variance := 20 } :=
  (statistics_spec 10 [20, 30]).2
